import Mathlib

/-!
Verification of the persistent MCP JSON-RPC client of the
watsonx-medical-mcp-server repository (backend.py, chatbot.py, frontend.py).

Strings from the Python source are modelled as `List Char`; JSON values as an
inductive `Json` mirroring the dictionaries/lists/strings handled by
`json.dumps` / `json.loads`; the concurrent request path of
`MCPWebClient._send_request` (backend.py lines 84-113) as a small-step
transition system in which byte writes interleave freely except where the
single `asyncio.Lock` forbids it; and the connection lifecycle
(`__init__`/`connect`/`_send_request`/`_ensure_connected`) as an explicit
state machine over environment-chosen spawn and handshake outcomes.
-/

/-- `chars s` is the character list of a string literal (Python `str`). -/
def chars (s : String) : List Char := s.data

/-- Python `str.strip` / whitespace test, modelled with the Unicode
whitespace characters Lean's `Char.isWhitespace` recognises. -/
def isSp (c : Char) : Bool := c.isWhitespace

/-- Python `str.lower`, character by character (`message.lower()`). -/
def pyLower (s : List Char) : List Char := s.map Char.toLower

/-- Python `str.strip`: drop whitespace from both ends. -/
def pyStrip (s : List Char) : List Char :=
  ((s.dropWhile isSp).reverse.dropWhile isSp).reverse

/-- Python `message.split(":", 1)[1]`: everything after the first colon.
Callers of this model only reach it under a guard that proves a colon is
present (indexing `[1]` would raise in Python otherwise). -/
def afterFirstColon (s : List Char) : List Char :=
  (s.dropWhile (fun c => !(c == ':'))).drop 1

/- JSON values as produced by `json.loads` and consumed by `json.dumps`.
Numbers are restricted to the naturals actually used (request ids and
integer parameters). `JFields` is an object's ordered key/value list
(Python dicts preserve insertion order), `JElems` an array's elements. -/
mutual
inductive Json where
  | null : Json
  | bool (b : Bool) : Json
  | num (n : Nat) : Json
  | str (s : List Char) : Json
  | obj (fs : JFields) : Json
  | arr (es : JElems) : Json

inductive JFields where
  | nil : JFields
  | cons (k : List Char) (v : Json) (rest : JFields) : JFields

inductive JElems where
  | nil : JElems
  | cons (v : Json) (rest : JElems) : JElems
end

/-- Key lookup in a parsed JSON object (`d[k]` / `k in d` on a dict).
Objects coming from `json.loads` have distinct keys. -/
def jLookup : JFields → List Char → Option Json
  | .nil, _ => none
  | .cons k v rest, key => if k = key then some v else jLookup rest key

/-- Element lookup in a JSON array (`l[i]`). -/
def jElem : JElems → Nat → Option Json
  | .nil, _ => none
  | .cons v _, 0 => some v
  | .cons _ rest, n + 1 => jElem rest n

/-- Python `s in l` for a JSON list `l` and string `s`: membership by
equality (a string only ever equals a string element). -/
def jElemsHasStr : JElems → List Char → Bool
  | .nil, _ => false
  | .cons (.str s) rest, k => s = k || jElemsHasStr rest k
  | .cons _ rest, k => jElemsHasStr rest k

/-- The opening brace character (written numerically). -/
def lbrace : Char := Char.ofNat 123

/-- The closing brace character (written numerically). -/
def rbrace : Char := Char.ofNat 125

/-- `json.dumps` escaping of one string character, for the escapes that
affect line framing (backslash, quote, newline, carriage return, tab). -/
def escapeChar (c : Char) : List Char :=
  if c = '\\' then ['\\', '\\']
  else if c = '"' then ['\\', '"']
  else if c = '\n' then ['\\', 'n']
  else if c = '\r' then ['\\', 'r']
  else if c = '\t' then ['\\', 't']
  else [c]

/-- `json.dumps` escaping of a whole string body. -/
def escapeList : List Char → List Char
  | [] => []
  | c :: rest => escapeChar c ++ escapeList rest

/-- One decimal digit as a character. -/
def digitChar (d : Nat) : Char := Char.ofNat (48 + d)

/-- Decimal rendering of a natural number (Python `int` serialization). -/
def natToChars (n : Nat) : List Char :=
  if _h : n < 10 then [digitChar n]
  else natToChars (n / 10) ++ [digitChar (n % 10)]
decreasing_by
  exact Nat.div_lt_self (by omega) (by omega)

/- `json.dumps(v)` with its default separators `", "` and `": "`. -/
mutual
def encodeJson : Json → List Char
  | .null => chars "null"
  | .bool true => chars "true"
  | .bool false => chars "false"
  | .num n => natToChars n
  | .str s => '"' :: (escapeList s ++ ['"'])
  | .obj fs => lbrace :: (encodeFields fs ++ [rbrace])
  | .arr es => '[' :: (encodeElems es ++ [']'])

def encodeFields : JFields → List Char
  | .nil => []
  | .cons k v .nil => '"' :: (escapeList k ++ ['"', ':', ' ']) ++ encodeJson v
  | .cons k v (.cons k2 v2 rest) =>
      ('"' :: (escapeList k ++ ['"', ':', ' ']) ++ encodeJson v) ++ [',', ' ']
        ++ encodeFields (.cons k2 v2 rest)

def encodeElems : JElems → List Char
  | .nil => []
  | .cons v .nil => encodeJson v
  | .cons v (.cons v2 rest) => encodeJson v ++ [',', ' '] ++ encodeElems (.cons v2 rest)
end

/-- A pending request: the `method` and `params` arguments of
`MCPWebClient._send_request` (backend.py line 84). -/
structure ReqSpec where
  method : List Char
  params : Json

/-- The request envelope built at backend.py lines 92-97:
`{"jsonrpc": "2.0", "id": id, "method": method, "params": params}`. -/
def requestJson (id : Nat) (r : ReqSpec) : Json :=
  Json.obj (.cons (chars "jsonrpc") (.str (chars "2.0"))
    (.cons (chars "id") (.num id)
      (.cons (chars "method") (.str r.method)
        (.cons (chars "params") r.params .nil))))

/-- The exact bytes written for one request:
`(json.dumps(req) + "\n").encode()` (backend.py line 104). -/
def encodeRequestLine (id : Nat) (r : ReqSpec) : List Char :=
  encodeJson (requestJson id r) ++ ['\n']

/-! ## Wire model: concurrent `_send_request` calls under the I/O lock

backend.py lines 84-113.  Any number of caller tasks (indexed by `Nat`)
each run one `_send_request`.  Steps are fine-grained — in particular every
byte of the serialized request is written by its own step — except that all
of them require holding the single `asyncio.Lock` (`self._io_lock`), as in
the source's `async with self._io_lock:` block. -/

namespace Wire

/-- Program counter of one `_send_request` caller.
`idle` — before `async with self._io_lock` (line 90);
`start` — lock held, before `self.request_id += 1` (line 91);
`writing id pending` — id allocated and envelope serialized, `pending`
bytes of the line still to be written (line 104);
`reading id` — line written and drained, blocked in `readline()` (line 107);
`finished id line` — returned, having read the `line`-th (0-based) line of
the subprocess's output; lock released. -/
inductive PC where
  | idle : PC
  | start : PC
  | writing (id : Nat) (pending : List Char) : PC
  | reading (id : Nat) : PC
  | finished (id : Nat) (line : Nat) : PC

/-- `true` on the program points at which the lock is not held. -/
def PC.passive : PC → Bool
  | .idle => true
  | .finished _ _ => true
  | _ => false

/-- Shared state: the lock owner, the client's `request_id` counter, the
byte stream received so far on the subprocess's stdin, the number of
response lines consumed from its stdout, and (as history bookkeeping) the
list of `(id, caller)` pairs whose request lines are fully written, in
completion order. -/
structure SysState where
  lock : Option Nat
  counter : Nat
  stream : List Char
  readCount : Nat
  log : List (Nat × Nat)
  pcs : Nat → PC

/-- Pointwise update of the program-counter map. -/
def updPC (f : Nat → PC) (t : Nat) (p : PC) : Nat → PC :=
  fun u => if u = t then p else f u

/-- Initial state: no process traffic yet, `request_id = 0`
(`MCPWebClient.__init__`, backend.py line 37), every caller idle. -/
def initState : SysState :=
  { lock := none, counter := 0, stream := [], readCount := 0, log := [],
    pcs := fun _ => .idle }

/-- Bytes of all fully-written request lines, in completion order
(`specs t` is the method/params of caller `t`). -/
def flatLog (specs : Nat → ReqSpec) (log : List (Nat × Nat)) : List Char :=
  (log.map (fun e => encodeRequestLine e.1 (specs e.2))).flatten

/-- One interleaved step of the system.
`acquire` — enter `async with self._io_lock` (line 90);
`alloc` — `self.request_id += 1` and building/serializing the envelope
(lines 91-97, 104);
`writeByte` — transfer of one byte of the line into the pipe (line 104);
`finishWrite` — the final byte is in the pipe and `drain()` returns
(line 105);
`readLine` — `readline()` returns the next unconsumed response line, the
envelope is parsed and returned, and the lock is released (lines 107-113).
The subprocess answers each complete request line with exactly one response
line, so a response is available only while `readCount < log.length`. -/
inductive Step (specs : Nat → ReqSpec) : SysState → SysState → Prop where
  | acquire (s : SysState) (t : Nat)
      (hpc : s.pcs t = .idle) (hl : s.lock = none) :
      Step specs s { s with lock := some t, pcs := updPC s.pcs t .start }
  | alloc (s : SysState) (t : Nat)
      (hpc : s.pcs t = .start) (hl : s.lock = some t) :
      Step specs s { s with
                     counter := s.counter + 1,
                     pcs := updPC s.pcs t
                       (.writing (s.counter + 1)
                         (encodeRequestLine (s.counter + 1) (specs t))) }
  | writeByte (s : SysState) (t : Nat) (id : Nat) (c : Char) (rest : List Char)
      (hpc : s.pcs t = .writing id (c :: rest)) (hl : s.lock = some t) :
      Step specs s { s with
                     stream := s.stream ++ [c],
                     pcs := updPC s.pcs t (.writing id rest) }
  | finishWrite (s : SysState) (t : Nat) (id : Nat)
      (hpc : s.pcs t = .writing id []) (hl : s.lock = some t) :
      Step specs s { s with
                     log := s.log ++ [(id, t)],
                     pcs := updPC s.pcs t (.reading id) }
  | readLine (s : SysState) (t : Nat) (id : Nat)
      (hpc : s.pcs t = .reading id) (hl : s.lock = some t)
      (hav : s.readCount < s.log.length) :
      Step specs s { s with
                     readCount := s.readCount + 1,
                     lock := none,
                     pcs := updPC s.pcs t (.finished id s.readCount) }

/-- States reachable from the initial one by interleaved steps. -/
def Reachable (specs : Nat → ReqSpec) (s : SysState) : Prop :=
  Relation.ReflTransGen (Step specs) initState s

/-- Inductive invariant of the wire model. -/
structure Inv (specs : Nat → ReqSpec) (s : SysState) : Prop where
  mutex : ∀ t, (s.pcs t).passive = false → s.lock = some t
  widE : ∀ t id pending, s.pcs t = .writing id pending →
    id = s.counter ∧ s.counter = s.log.length + 1 ∧
    ∃ w, w ++ pending = encodeRequestLine id (specs t) ∧
      s.stream = flatLog specs s.log ++ w
  ridE : ∀ t id, s.pcs t = .reading id →
    id = s.log.length ∧ s.counter = s.log.length ∧
    s.log.length = s.readCount + 1 ∧ s.log.get? s.readCount = some (id, t)
  noWriterStream : (∀ t id p, s.pcs t ≠ .writing id p) →
    s.stream = flatLog specs s.log
  noWriterCnt : (∀ t id p, s.pcs t ≠ .writing id p) →
    (∀ t id, s.pcs t ≠ .reading id) → s.counter = s.log.length
  noReaderRead : (∀ t id, s.pcs t ≠ .reading id) → s.readCount = s.log.length
  logIds : s.log.map Prod.fst = List.range' 1 s.log.length
  finE : ∀ t id line, s.pcs t = .finished id line →
    line + 1 = id ∧ s.log.get? line = some (id, t)

end Wire

/-! ## Client lifecycle model (backend.py `MCPWebClient` and module helpers)

`connect` / `_send_request` / `_ensure_connected`, backend.py lines 35-68,
84-113 and 219-229.  Spawn success and handshake outcome are chosen by the
environment; the model records the request ids actually received by the
subprocess on its stdin pipe. -/

namespace Backend

/-- Liveness of `self.process`: `noProc` — still `None`;
`alive` — spawned and `returncode is None`; `exited` — spawned but dead. -/
inductive ProcState where
  | noProc : ProcState
  | alive : ProcState
  | exited : ProcState
deriving DecidableEq

/-- Environment choice for `asyncio.create_subprocess_exec`: returns a
process, or raises (e.g. `FileNotFoundError` for a bad command). -/
inductive SpawnOutcome where
  | ok : SpawnOutcome
  | exn : SpawnOutcome
deriving DecidableEq

/-- Environment choice for the handshake (`initialize` round trip plus the
`initialized` notification).  `ok` — both succeed.  `failAlive` — an
exception after the initialize request was written (e.g. the response line
is malformed JSON) with the subprocess still running.  `failDead` — the
subprocess received the initialize request but died before answering (EOF
on `readline` raises `RuntimeError("No response from MCP server")`).
`failDeadNoWrite` — the subprocess died before the initialize write
landed: `write`/`drain` hits a broken pipe, so the id has been allocated
(the increment at line 91 precedes the write) but nothing reaches the
subprocess. -/
inductive HsOutcome where
  | ok : HsOutcome
  | failAlive : HsOutcome
  | failDead : HsOutcome
  | failDeadNoWrite : HsOutcome
deriving DecidableEq

/-- Client state: `self.process` liveness and the `self.request_id`
counter (`__init__`, backend.py lines 35-38). -/
structure Client where
  process : ProcState
  request_id : Nat
deriving DecidableEq

/-- `MCPWebClient.__init__`: no process, `request_id = 0`. -/
def initClient : Client := { process := .noProc, request_id := 0 }

/-- Result of a `connect` call: a returned boolean, or a propagated
exception. -/
inductive ConnectResult where
  | returned (b : Bool) : ConnectResult
  | raised : ConnectResult
deriving DecidableEq

/-- Everything observable about one `connect` call: its result, the client
state afterwards, whether a subprocess was spawned, the request ids the
subprocess received during the call, and whether the full handshake
completed. -/
structure ConnectStep where
  result : ConnectResult
  client : Client
  spawned : Bool
  idsWritten : List Nat
  handshakeDone : Bool
deriving DecidableEq

/-- `MCPWebClient.connect` (backend.py lines 41-68).
If a live process exists, return `True` without spawning (lines 42-44).
Otherwise spawn; the spawn and the lock creation sit OUTSIDE the
`try`, so a spawn exception propagates (lines 46-53).  The handshake
(`initialize` request, then `initialized` notification) runs inside
`try`; `_send_request` increments `request_id` and writes the request
line; any handshake exception is caught and `False` returned
(lines 55-68).  On `failDead` the subprocess dies during the handshake
after receiving the request line; on `failDeadNoWrite` it dies before the
write lands, so the allocated id is lost to the broken pipe and the
subprocess receives nothing. -/
def connect (c : Client) (sp : SpawnOutcome) (hs : HsOutcome) : ConnectStep :=
  if c.process = .alive then
    { result := .returned true, client := c, spawned := false,
      idsWritten := [], handshakeDone := false }
  else
    match sp with
    | .exn =>
        { result := .raised, client := c, spawned := false,
          idsWritten := [], handshakeDone := false }
    | .ok =>
        let rid := c.request_id + 1
        match hs with
        | .ok =>
            { result := .returned true,
              client := { process := .alive, request_id := rid },
              spawned := true, idsWritten := [rid], handshakeDone := true }
        | .failAlive =>
            { result := .returned false,
              client := { process := .alive, request_id := rid },
              spawned := true, idsWritten := [rid], handshakeDone := false }
        | .failDead =>
            { result := .returned false,
              client := { process := .exited, request_id := rid },
              spawned := true, idsWritten := [rid], handshakeDone := false }
        | .failDeadNoWrite =>
            { result := .returned false,
              client := { process := .exited, request_id := rid },
              spawned := true, idsWritten := [], handshakeDone := false }

/-- Observable effect of one `_send_request` call made outside `connect`
(a `tools/call` or `resources/read`).  The counter is incremented first
(line 91); with no process the `assert` raises after the increment
(lines 99-101); with a dead process the write goes to a broken pipe, so the
subprocess receives nothing and `drain`/`readline` raises. -/
structure SendStep where
  client : Client
  idsWritten : List Nat
  raisedExn : Bool
deriving DecidableEq

/-- `MCPWebClient._send_request` at the lifecycle level (backend.py
lines 84-113). -/
def sendRequest (c : Client) : SendStep :=
  let rid := c.request_id + 1
  match c.process with
  | .noProc => { client := { c with request_id := rid }, idsWritten := [], raisedExn := true }
  | .alive => { client := { c with request_id := rid }, idsWritten := [rid], raisedExn := false }
  | .exited => { client := { c with request_id := rid }, idsWritten := [], raisedExn := true }

/-- Result of `_ensure_connected` (backend.py lines 219-229): returns, or
raises (`RuntimeError("Unable to establish MCP connection.")` when
`connect` returned `False`, or the exception `connect` itself leaked). -/
inductive EnsureResult where
  | okE : EnsureResult
  | raisedE : EnsureResult
deriving DecidableEq

/-- `_ensure_connected` (backend.py lines 219-229): if a live process
exists, return at once — without any handshake; otherwise call `connect`
and raise unless it returned `True`.  The third component records whether
a connect attempt (spawn + handshake) was performed. -/
def ensureConnected (c : Client) (sp : SpawnOutcome) (hs : HsOutcome) :
    EnsureResult × Client × Bool :=
  if c.process = .alive then (.okE, c, false)
  else
    let r := connect c sp hs
    match r.result with
    | .returned true => (.okE, r.client, true)
    | .returned false => (.raisedE, r.client, true)
    | .raised => (.raisedE, r.client, true)

/-- One client-lifetime event: a `connect` call with its environment
outcomes, a tool-call `_send_request`, or spontaneous subprocess death
(the spawned `server.py` exiting). -/
inductive Event where
  | connectEv (sp : SpawnOutcome) (hs : HsOutcome) : Event
  | sendEv : Event
  | procExitEv : Event
deriving DecidableEq

/-- Observable effect of one event. -/
structure StepOut where
  client : Client
  ids : List Nat
  spawns : Nat
deriving DecidableEq

/-- Apply one event to the client. -/
def applyEvent (c : Client) : Event → StepOut
  | .connectEv sp hs =>
      let r := connect c sp hs
      { client := r.client, ids := r.idsWritten, spawns := if r.spawned then 1 else 0 }
  | .sendEv =>
      let r := sendRequest c
      { client := r.client, ids := r.idsWritten, spawns := 0 }
  | .procExitEv =>
      { client := { c with process := if c.process = .alive then .exited else c.process },
        ids := [], spawns := 0 }

/-- Accumulated run of a list of events. -/
structure RunOut where
  client : Client
  ids : List Nat
  spawns : Nat
deriving DecidableEq

/-- Run a list of events from a client state, accumulating the request ids
the subprocess receives (in order) and the number of spawns. -/
def runEvents : Client → List Event → RunOut
  | c, [] => { client := c, ids := [], spawns := 0 }
  | c, e :: es =>
      let o := applyEvent c e
      let r := runEvents o.client es
      { client := r.client, ids := o.ids ++ r.ids, spawns := o.spawns + r.spawns }

/-- Request ids received by the subprocess over a whole client lifetime
starting from `__init__`. -/
def idsWritten (es : List Event) : List Nat := (runEvents initClient es).ids

/-- A trace is `good` when every request line actually lands on a live
pipe: every tool-call `_send_request` happens while the Connection is
live (the discipline `_ensure_connected` is meant to provide), and no
spawning `connect`'s handshake write is lost to a subprocess that dies
before receiving it.  Then no id allocation is lost to a dead pipe. -/
def goodTraceB : Client → List Event → Bool
  | _, [] => true
  | c, e :: es =>
      (match e with
       | .sendEv => decide (c.process = .alive)
       | .connectEv sp hs =>
           decide (c.process = .alive) || decide (sp = .exn)
             || decide (hs ≠ .failDeadNoWrite)
       | .procExitEv => true)
      && goodTraceB (applyEvent c e).client es

end Backend

/-! ## The duplicate client of chatbot.py

`MCPWebClient.connect` in chatbot.py (lines 83-120) differs from
backend.py: the spawn sits INSIDE the `try`, and a `self.connected` flag
is set to `True` before the handshake and rolled back to `False` in the
`except` clause. -/

namespace Chatbot

/-- chatbot.py client state (lines 42-45): process, `request_id`, and the
`connected` flag. -/
structure Client where
  process : Backend.ProcState
  request_id : Nat
  connected : Bool
deriving DecidableEq

/-- `MCPWebClient.__init__` (chatbot.py lines 42-45). -/
def initClient : Client := { process := .noProc, request_id := 0, connected := false }

/-- `MCPWebClient.connect` (chatbot.py lines 83-120).  The whole body is
inside `try`, so every exception — spawn included — yields `False`; no
exception propagates.  Returns the boolean and the client afterwards. -/
def connect (c : Client) (sp : Backend.SpawnOutcome) (hs : Backend.HsOutcome) :
    Bool × Client :=
  match sp with
  | .exn => (false, { c with connected := false })
  | .ok =>
      let c1 : Client :=
        { process := .alive, request_id := c.request_id + 1, connected := true }
      match hs with
      | .ok => (true, c1)
      | .failAlive => (false, { c1 with connected := false })
      | .failDead => (false, { c1 with process := .exited, connected := false })
      | .failDeadNoWrite => (false, { c1 with process := .exited, connected := false })

end Chatbot

/-! ## Synchronous facade: blocking wait on the background loop

backend.py `get_mcp_response` (lines 279-291) calls `fut.result()` with NO
timeout; chatbot.py `call_mcp_action` (lines 346-393) calls
`future.result(timeout=30)`.  The submitted task's behaviour is an
environment choice. -/

namespace Facade

/-- Fate of the coroutine submitted to the background loop: it produces an
outcome pair after `t` time units, raises after `t` time units, or never
completes (e.g. the subprocess never writes a response line). -/
inductive TaskFate where
  | completesAt (t : Nat) (v : Option String × Option String) : TaskFate
  | raisesAt (t : Nat) (msg : String) : TaskFate
  | neverCompletes : TaskFate

/-- What `future.result(...)` does for a given optional timeout bound:
yields the value, re-raises the task's exception, raises
`concurrent.futures.TimeoutError`, or — with no bound and a task that
never completes — blocks forever. -/
inductive WaitResult where
  | value (v : Option String × Option String) : WaitResult
  | raisedW (msg : String) : WaitResult
  | timedOut : WaitResult
  | hangs : WaitResult

/-- `future.result()` / `future.result(timeout=b)`. -/
def futureResult (bound : Option Nat) (fate : TaskFate) : WaitResult :=
  match fate, bound with
  | .completesAt _ v, none => .value v
  | .completesAt t v, some b => if t ≤ b then .value v else .timedOut
  | .raisesAt _ m, none => .raisedW m
  | .raisesAt t m, some b => if t ≤ b then .raisedW m else .timedOut
  | .neverCompletes, none => .hangs
  | .neverCompletes, some _ => .timedOut

/-- Observable behaviour of one facade invocation: it returns an outcome
pair to the caller thread, or it never returns. -/
inductive FacadeBehavior where
  | outcome (v : Option String × Option String) : FacadeBehavior
  | hangs : FacadeBehavior

/-- backend.py `get_mcp_response` (lines 279-291): submit, then
`fut.result()` with no timeout; any exception is caught and converted to
`(None, "Internal backend error: ...")`.  The `timedOut` branch is
unreachable with `bound = none`. -/
def get_mcp_response (fate : TaskFate) : FacadeBehavior :=
  match futureResult none fate with
  | .value v => .outcome v
  | .raisedW m => .outcome (none, some ("Internal backend error: " ++ m))
  | .timedOut => .outcome (none, some ("Internal backend error: timeout"))
  | .hangs => .hangs

/-- chatbot.py `call_mcp_action` (lines 346-393): submit, then
`future.result(timeout=30)`; the `except Exception` clause converts both a
task exception and the `TimeoutError` into `(None, "Internal error: ...")`.
The `hangs` branch is unreachable with a bound present. -/
def call_mcp_action (fate : TaskFate) : FacadeBehavior :=
  match futureResult (some 30) fate with
  | .value v => .outcome v
  | .raisedW m => .outcome (none, some ("Internal error: " ++ m))
  | .timedOut => .outcome (none, some "Internal error: concurrent.futures.TimeoutError")
  | .hangs => .hangs

end Facade

/-! ## Tool-call layer: `clear_history` and `get_summary`

backend.py lines 174-190.  Both call `call_tool`, then:
`if "result" in resp and "content" in resp["result"]:` return
`resp["result"]["content"][0]["text"]`; OTHERWISE return a friendly
default success message.  There is no `error` branch; only an exception
produces an error outcome. -/

namespace ToolLayer

/-- A Python exception raised while testing or indexing the response. -/
inductive PyExn where
  | keyError (k : List Char) : PyExn
  | indexError : PyExn
  | typeError : PyExn
deriving DecidableEq

/-- Model of `str(e)` for the exceptions above (the exact Python rendering
is irrelevant to the claims; only which branch ran matters). -/
def exnText : PyExn → List Char
  | .keyError k => chars "KeyError: " ++ k
  | .indexError => chars "list index out of range"
  | .typeError => chars "TypeError"

/-- Python `k in resp` for a parsed JSON value: key membership on an
object, element membership on a list, substring test on a string,
`TypeError` otherwise. -/
def pyIn (k : List Char) : Json → Except PyExn Bool
  | .obj fs => .ok (jLookup fs k).isSome
  | .arr es => .ok (jElemsHasStr es k)
  | .str s => .ok (decide (k <:+: s))
  | _ => .error .typeError

/-- Python `resp[k]` for a string key. -/
def pyIndexKey (j : Json) (k : List Char) : Except PyExn Json :=
  match j with
  | .obj fs =>
      match jLookup fs k with
      | some v => .ok v
      | none => .error (.keyError k)
  | _ => .error .typeError

/-- Python `l[i]` for an integer index. -/
def pyIndexNat (j : Json) (i : Nat) : Except PyExn Json :=
  match j with
  | .arr es =>
      match jElem es i with
      | some v => .ok v
      | none => .error .indexError
  | _ => .error .typeError

/-- The shared response shape test and extraction of backend.py
lines 177-178 / 186-187: evaluate
`"result" in resp and "content" in resp["result"]`; when it holds, take
`resp["result"]["content"][0]["text"]`.  `none` means the condition was
false (the friendly-default branch). -/
def extractContentText (resp : Json) : Except PyExn (Option Json) := do
  let hasRes ← pyIn (chars "result") resp
  if hasRes then do
    let res ← pyIndexKey resp (chars "result")
    let hasContent ← pyIn (chars "content") res
    if hasContent then do
      let content ← pyIndexKey res (chars "content")
      let item ← pyIndexNat content 0
      let text ← pyIndexKey item (chars "text")
      pure (some text)
    else
      pure none
  else
    pure none

/-- Outcome of `self.call_tool(...)` as seen by the wrapper: a parsed
response envelope, or an exception (connection failure etc.). -/
inductive CallAttempt where
  | resp (j : Json) : CallAttempt
  | raises (msg : List Char) : CallAttempt

/-- `MCPWebClient.clear_history` (backend.py lines 174-181). -/
def clear_history : CallAttempt → Option Json × Option (List Char)
  | .raises m => (none, some (chars "Error clearing history: " ++ m))
  | .resp j =>
      match extractContentText j with
      | .ok (some v) => (some v, none)
      | .ok none => (some (.str (chars "Conversation history cleared.")), none)
      | .error e => (none, some (chars "Error clearing history: " ++ exnText e))

/-- `MCPWebClient.get_summary` (backend.py lines 183-190). -/
def get_summary : CallAttempt → Option Json × Option (List Char)
  | .raises m => (none, some (chars "Error getting summary: " ++ m))
  | .resp j =>
      match extractContentText j with
      | .ok (some v) => (some v, none)
      | .ok none => (some (.str (chars "No conversation to summarise.")), none)
      | .error e => (none, some (chars "Error getting summary: " ++ exnText e))

/-- Fields of an error envelope as the subprocess would send it:
`{"jsonrpc": "2.0", "id": 3, "error": {"message": "boom"}}`. -/
def errorFields : JFields :=
  .cons (chars "jsonrpc") (.str (chars "2.0"))
    (.cons (chars "id") (.num 3)
      (.cons (chars "error")
        (Json.obj (.cons (chars "message") (.str (chars "boom")) .nil)) .nil))

/-- The error envelope itself. -/
def errorEnvelope : Json := Json.obj errorFields

end ToolLayer

/-! ## Message classifier `parse_message_for_action`

backend.py lines 295-320 (equivalently chatbot.py lines 395-415: the
nested `if` there has the same semantics). -/

namespace Classify

/-- `_MEDICAL_KEYWORDS` (backend.py lines 295-306).  The Python set is
only consumed by `any(kw in txt for kw in ...)`, so iteration order is
irrelevant; it is written here in the source's literal order. -/
def MEDICAL_KEYWORDS : List (List Char) :=
  [chars "pain", chars "fever", chars "headache", chars "nausea",
   chars "cough", chars "symptoms", chars "hurt", chars "ache",
   chars "sick", chars "illness"]

/-- The phrase tuple of backend.py line 316. -/
def PHRASES : List (List Char) :=
  [chars "i have", chars "experiencing", chars "feeling", chars "symptoms"]

/-- `parse_message_for_action` (backend.py lines 309-320).  The local
`txt = message.lower().strip()` is inlined.  Returns the action name and
the keyword-argument mapping as a key/value list. -/
def parse_message_for_action (message : List Char) :
    List Char × List (List Char × List Char) :=
  if (chars "symptoms:").isPrefixOf (pyStrip (pyLower message))
      || (chars "analyze:").isPrefixOf (pyStrip (pyLower message)) then
    (chars "analyze_symptoms",
     [(chars "symptoms", pyStrip (afterFirstColon message))])
  else if MEDICAL_KEYWORDS.any (fun kw => decide (kw <:+: pyStrip (pyLower message)))
      && PHRASES.any (fun p => decide (p <:+: pyStrip (pyLower message))) then
    (chars "analyze_symptoms", [(chars "symptoms", message)])
  else
    (chars "chat", [(chars "message", message)])

/-- The classifier as the specification phrases it: the keyword and phrase
sets are looked for case-insensitively in the MESSAGE (its lowercased
form), rather than in the lowercased-and-stripped text the code builds.
Used to show the code refines the spec's wording. -/
def parseSpecSide (message : List Char) :
    List Char × List (List Char × List Char) :=
  if (chars "symptoms:").isPrefixOf (pyStrip (pyLower message))
      || (chars "analyze:").isPrefixOf (pyStrip (pyLower message)) then
    (chars "analyze_symptoms",
     [(chars "symptoms", pyStrip (afterFirstColon message))])
  else if MEDICAL_KEYWORDS.any (fun kw => decide (kw <:+: pyLower message))
      && PHRASES.any (fun p => decide (p <:+: pyLower message)) then
    (chars "analyze_symptoms", [(chars "symptoms", message)])
  else
    (chars "chat", [(chars "message", message)])

/-- A pattern whose first and last characters exist and are not
whitespace (true of every keyword and phrase above). -/
def goodPat : List Char → Bool
  | [] => false
  | c :: rest => !isSp c && !isSp (rest.getLastD c)

end Classify

/-! ## History eviction `trim_history`

frontend.py lines 63-75 (identically chatbot.py lines 417-426). -/

namespace History

/-- One role-tagged chat record (`{"role": ..., "content": ...}`). -/
structure Msg where
  role : List Char
  content : List Char

/-- `len(msg.get('content', ''))`. -/
def msgLen (m : Msg) : Nat := m.content.length

/-- `sum(len(msg.get('content', '')) for msg in history)`. -/
def totalChars (h : List Msg) : Nat := (h.map msgLen).sum

/-- The `while current_chars > max_chars and len(history) > 2:` loop,
popping the head.  `cur` is the running `current_chars`. -/
def trimLoop (maxChars : Nat) : Nat → List Msg → List Msg
  | _, [] => []
  | cur, m :: rest =>
      if maxChars < cur ∧ 2 < (m :: rest).length then
        trimLoop maxChars (cur - msgLen m) rest
      else
        m :: rest

/-- `trim_history(history, max_chars)` (frontend.py lines 63-75). -/
def trim_history (history : List Msg) (maxChars : Nat) : List Msg :=
  trimLoop maxChars (totalChars history) history

end History

/-! ## Statement of C1's conclusion and demo states for the wire model -/

namespace Wire

/-- What C1 asserts about a state of the wire model:
(i) the subprocess's input stream is a concatenation of complete request
lines — one per `log` entry, in order — followed by at most the prefix of
the single in-progress write, so no two requests interleave their bytes;
(ii) the fully written requests carry ids 1, 2, 3, … in write order;
(iii) every complete line is one JSON document terminated by the only
newline it contains (so each line parses independently);
(iv) every finished caller with request id `id` read response line
`id - 1`: the Nth line read corresponds to the Nth request written. -/
def C1Good (specs : Nat → ReqSpec) (s : SysState) : Prop :=
  (∃ w, s.stream = flatLog specs s.log ++ w ∧
    (w = [] ∨ ∃ t id pending, s.pcs t = .writing id pending ∧
      w ++ pending = encodeRequestLine id (specs t)))
  ∧ s.log.map Prod.fst = List.range' 1 s.log.length
  ∧ (∀ id r, encodeRequestLine id r = encodeJson (requestJson id r) ++ ['\n']
      ∧ '\n' ∉ encodeJson (requestJson id r))
  ∧ (∀ t id line, s.pcs t = .finished id line →
      line + 1 = id ∧ s.log.get? line = some (id, t))

/-- A demo request: `tools/call` with an empty argument object. -/
def demoSpec : ReqSpec :=
  { method := chars "tools/call",
    params := Json.obj (.cons (chars "name") (.str (chars "chat_with_watsonx"))
      (.cons (chars "arguments") (Json.obj .nil) .nil)) }

/-- Every caller wants the demo request. -/
def demoSpecs : Nat → ReqSpec := fun _ => demoSpec

/-- Demo state: caller 0 has acquired the lock. -/
def demoS1 : SysState :=
  { initState with lock := some 0, pcs := updPC initState.pcs 0 .start }

/-- Demo state: caller 0 has allocated id 1 and serialized its request. -/
def demoS2 : SysState :=
  { demoS1 with
    counter := 1,
    pcs := updPC demoS1.pcs 0 (.writing 1 (encodeRequestLine 1 demoSpec)) }

end Wire

/-! # Theorems -/

/-! ## Well-formedness of serialized request lines -/

theorem digitChar_ne_nl : ∀ d : Nat, d < 10 → digitChar d ≠ '\n' := by decide

theorem natToChars_no_nl : ∀ n : Nat, '\n' ∉ natToChars n := by
  intro n
  induction n using Nat.strong_induction_on with
  | _ n ih =>
    rw [natToChars]
    split
    · next h =>
        simp only [List.mem_singleton]
        exact fun hc => digitChar_ne_nl n h hc.symm
    · next h =>
        intro hmem
        rcases List.mem_append.mp hmem with h1 | h2
        · exact ih (n / 10) (Nat.div_lt_self (by omega) (by omega)) h1
        · have hd : '\n' = digitChar (n % 10) := by simpa using h2
          exact digitChar_ne_nl (n % 10) (Nat.mod_lt _ (by omega)) hd.symm

theorem escapeChar_no_nl : ∀ c : Char, '\n' ∉ escapeChar c := by
  intro c
  unfold escapeChar
  split
  · decide
  · split
    · decide
    · split
      · decide
      · split
        · decide
        · split
          · decide
          · next h1 h2 h3 h4 h5 =>
              simp only [List.mem_singleton]
              exact fun hc => h3 hc.symm

theorem escapeList_no_nl : ∀ s : List Char, '\n' ∉ escapeList s := by
  intro s
  induction s with
  | nil => simp [escapeList]
  | cons c rest ih =>
    simp only [escapeList, List.mem_append]
    rintro (h | h)
    · exact escapeChar_no_nl c h
    · exact ih h

mutual
theorem encodeJson_no_nl (j : Json) : '\n' ∉ encodeJson j := by
  cases j with
  | null => decide
  | bool b => cases b <;> decide
  | num n => exact natToChars_no_nl n
  | str s =>
      have h1 : ('\n' : Char) ≠ '"' := by decide
      have h2 := escapeList_no_nl s
      simp [encodeJson, h1, h2]
  | obj fs =>
      have h1 : ('\n' : Char) ≠ lbrace := by decide
      have h2 : ('\n' : Char) ≠ rbrace := by decide
      have h3 := encodeFields_no_nl fs
      simp [encodeJson, h1, h2, h3]
  | arr es =>
      have h1 : ('\n' : Char) ≠ '[' := by decide
      have h2 : ('\n' : Char) ≠ ']' := by decide
      have h3 := encodeElems_no_nl es
      simp [encodeJson, h1, h2, h3]

theorem encodeFields_no_nl (fs : JFields) : '\n' ∉ encodeFields fs := by
  cases fs with
  | nil => simp [encodeFields]
  | cons k v rest =>
      have hq : ('\n' : Char) ≠ '"' := by decide
      have hc : ('\n' : Char) ≠ ':' := by decide
      have hs : ('\n' : Char) ≠ ' ' := by decide
      have hcm : ('\n' : Char) ≠ ',' := by decide
      have hk := escapeList_no_nl k
      have hv := encodeJson_no_nl v
      cases rest with
      | nil => simp [encodeFields, hq, hc, hs, hk, hv]
      | cons k2 v2 rest2 =>
          have hr := encodeFields_no_nl (.cons k2 v2 rest2)
          simp [encodeFields, hq, hc, hs, hcm, hk, hv, hr]

theorem encodeElems_no_nl (es : JElems) : '\n' ∉ encodeElems es := by
  cases es with
  | nil => simp [encodeElems]
  | cons v rest =>
      have hv := encodeJson_no_nl v
      cases rest with
      | nil => simpa [encodeElems] using hv
      | cons v2 rest2 =>
          have hcm : ('\n' : Char) ≠ ',' := by decide
          have hs : ('\n' : Char) ≠ ' ' := by decide
          have hr := encodeElems_no_nl (.cons v2 rest2)
          simp [encodeElems, hcm, hs, hv, hr]
end

theorem requestLine_wellformed (id : Nat) (r : ReqSpec) :
    encodeRequestLine id r = encodeJson (requestJson id r) ++ ['\n']
    ∧ '\n' ∉ encodeJson (requestJson id r) :=
  ⟨rfl, encodeJson_no_nl _⟩

/-! ## The wire-model invariant -/

theorem updPC_same (f : Nat → Wire.PC) (t : Nat) (p : Wire.PC) :
    Wire.updPC f t p t = p := by simp [Wire.updPC]

theorem updPC_other (f : Nat → Wire.PC) (t : Nat) (p : Wire.PC) (u : Nat)
    (h : u ≠ t) : Wire.updPC f t p u = f u := by simp [Wire.updPC, h]

theorem flatLog_concat (specs : Nat → ReqSpec) (log : List (Nat × Nat))
    (e : Nat × Nat) :
    Wire.flatLog specs (log ++ [e])
      = Wire.flatLog specs log ++ encodeRequestLine e.1 (specs e.2) := by
  simp [Wire.flatLog]

theorem inv_init (specs : Nat → ReqSpec) : Wire.Inv specs Wire.initState := by
  refine ⟨?_, ?_, ?_, ?_, ?_, ?_, ?_, ?_⟩
  · intro t h
    simp [Wire.initState, Wire.PC.passive] at h
  · intro t id pending h
    simp [Wire.initState] at h
  · intro t id h
    simp [Wire.initState] at h
  · intro _
    simp [Wire.initState, Wire.flatLog]
  · intro _ _
    simp [Wire.initState]
  · intro _
    simp [Wire.initState]
  · simp [Wire.initState]
  · intro t id line h
    simp [Wire.initState] at h

theorem inv_step (specs : Nat → ReqSpec) {s s2 : Wire.SysState}
    (hstep : Wire.Step specs s s2) (hinv : Wire.Inv specs s) :
    Wire.Inv specs s2 := by
  obtain ⟨mutex, widE, ridE, noWS, noWC, noRR, logIds, finE⟩ := hinv
  cases hstep with
  | acquire t hpc hl =>
      refine ⟨?_, ?_, ?_, ?_, ?_, ?_, logIds, ?_⟩ <;> dsimp only
      · intro u hu
        by_cases het : u = t
        · subst het; rfl
        · rw [updPC_other _ _ _ _ het] at hu
          have h2 := mutex u hu
          rw [hl] at h2
          exact absurd h2 (by simp)
      · intro u id pending h
        by_cases het : u = t
        · subst het; rw [updPC_same] at h; exact absurd h (by simp)
        · rw [updPC_other _ _ _ _ het] at h
          exact widE u id pending h
      · intro u id h
        by_cases het : u = t
        · subst het; rw [updPC_same] at h; exact absurd h (by simp)
        · rw [updPC_other _ _ _ _ het] at h
          exact ridE u id h
      · intro hno
        refine noWS ?_
        intro u id p hup
        by_cases het : u = t
        · subst het; rw [hpc] at hup; exact absurd hup (by simp)
        · have h3 := hno u id p
          rw [updPC_other _ _ _ _ het] at h3
          exact h3 hup
      · intro hno hnr
        refine noWC ?_ ?_
        · intro u id p hup
          by_cases het : u = t
          · subst het; rw [hpc] at hup; exact absurd hup (by simp)
          · have h3 := hno u id p
            rw [updPC_other _ _ _ _ het] at h3
            exact h3 hup
        · intro u id hup
          by_cases het : u = t
          · subst het; rw [hpc] at hup; exact absurd hup (by simp)
          · have h3 := hnr u id
            rw [updPC_other _ _ _ _ het] at h3
            exact h3 hup
      · intro hnr
        refine noRR ?_
        intro u id hup
        by_cases het : u = t
        · subst het; rw [hpc] at hup; exact absurd hup (by simp)
        · have h3 := hnr u id
          rw [updPC_other _ _ _ _ het] at h3
          exact h3 hup
      · intro u id line h
        by_cases het : u = t
        · subst het; rw [updPC_same] at h; exact absurd h (by simp)
        · rw [updPC_other _ _ _ _ het] at h
          exact finE u id line h
  | alloc t hpc hl =>
      have hnow : ∀ u id p, s.pcs u ≠ .writing id p := by
        intro u id p hup
        by_cases het : u = t
        · subst het; rw [hpc] at hup; exact absurd hup (by simp)
        · have hm := mutex u (by rw [hup]; rfl)
          rw [hl] at hm
          exact het (by injection hm with h2; exact h2.symm)
      have hnor : ∀ u id, s.pcs u ≠ .reading id := by
        intro u id hup
        by_cases het : u = t
        · subst het; rw [hpc] at hup; exact absurd hup (by simp)
        · have hm := mutex u (by rw [hup]; rfl)
          rw [hl] at hm
          exact het (by injection hm with h2; exact h2.symm)
      have hcnt : s.counter = s.log.length := noWC hnow hnor
      have hstr : s.stream = Wire.flatLog specs s.log := noWS hnow
      refine ⟨?_, ?_, ?_, ?_, ?_, ?_, logIds, ?_⟩ <;> dsimp only
      · intro u hu
        by_cases het : u = t
        · subst het; exact hl
        · rw [updPC_other _ _ _ _ het] at hu
          exact mutex u hu
      · intro u id pending h
        by_cases het : u = t
        · subst het
          rw [updPC_same] at h
          injection h with hid hpend
          refine ⟨hid.symm, by simp [hcnt], [], ?_, by simp [hstr]⟩
          rw [List.nil_append, ← hpend, ← hid]
        · rw [updPC_other _ _ _ _ het] at h
          exact absurd h (hnow u id pending)
      · intro u id h
        by_cases het : u = t
        · subst het; rw [updPC_same] at h; exact absurd h (by simp)
        · rw [updPC_other _ _ _ _ het] at h
          exact absurd h (hnor u id)
      · intro hno
        have h3 := hno t (s.counter + 1) (encodeRequestLine (s.counter + 1) (specs t))
        rw [updPC_same] at h3
        exact absurd rfl h3
      · intro hno _
        have h3 := hno t (s.counter + 1) (encodeRequestLine (s.counter + 1) (specs t))
        rw [updPC_same] at h3
        exact absurd rfl h3
      · intro hnr
        refine noRR ?_
        intro u id hup
        by_cases het : u = t
        · subst het; rw [hpc] at hup; exact absurd hup (by simp)
        · have h3 := hnr u id
          rw [updPC_other _ _ _ _ het] at h3
          exact h3 hup
      · intro u id line h
        by_cases het : u = t
        · subst het; rw [updPC_same] at h; exact absurd h (by simp)
        · rw [updPC_other _ _ _ _ het] at h
          exact finE u id line h
  | writeByte t id c rest hpc hl =>
      refine ⟨?_, ?_, ?_, ?_, ?_, ?_, logIds, ?_⟩ <;> dsimp only
      · intro u hu
        by_cases het : u = t
        · subst het; exact hl
        · rw [updPC_other _ _ _ _ het] at hu
          exact mutex u hu
      · intro u id2 pending h
        by_cases het : u = t
        · subst het
          rw [updPC_same] at h
          injection h with hid hpend
          obtain ⟨h1, h2, w, hw, hs⟩ := widE u id (c :: rest) hpc
          refine ⟨hid ▸ h1, h2, w ++ [c], ?_, ?_⟩
          · rw [List.append_assoc, List.singleton_append, ← hpend, ← hid]
            exact hw
          · rw [hs, List.append_assoc]
        · rw [updPC_other _ _ _ _ het] at h
          have hm := mutex u (by rw [h]; rfl)
          rw [hl] at hm
          exact absurd (by injection hm with h2; exact h2.symm) het
      · intro u id2 h
        by_cases het : u = t
        · subst het; rw [updPC_same] at h; exact absurd h (by simp)
        · rw [updPC_other _ _ _ _ het] at h
          have hm := mutex u (by rw [h]; rfl)
          rw [hl] at hm
          exact absurd (by injection hm with h2; exact h2.symm) het
      · intro hno
        have h3 := hno t id rest
        rw [updPC_same] at h3
        exact absurd rfl h3
      · intro hno _
        have h3 := hno t id rest
        rw [updPC_same] at h3
        exact absurd rfl h3
      · intro hnr
        refine noRR ?_
        intro u id2 hup
        by_cases het : u = t
        · subst het; rw [hpc] at hup; exact absurd hup (by simp)
        · have h3 := hnr u id2
          rw [updPC_other _ _ _ _ het] at h3
          exact h3 hup
      · intro u id2 line h
        by_cases het : u = t
        · subst het; rw [updPC_same] at h; exact absurd h (by simp)
        · rw [updPC_other _ _ _ _ het] at h
          exact finE u id2 line h
  | finishWrite t id hpc hl =>
      obtain ⟨hid, hcnt, w, hw, hs⟩ := widE t id [] hpc
      have hwl : w = encodeRequestLine id (specs t) := by simpa using hw
      have hnor : ∀ u id2, s.pcs u ≠ .reading id2 := by
        intro u id2 hup
        by_cases het : u = t
        · subst het; rw [hpc] at hup; exact absurd hup (by simp)
        · have hm := mutex u (by rw [hup]; rfl)
          rw [hl] at hm
          exact absurd (by injection hm with h2; exact h2.symm) het
      have hrc : s.readCount = s.log.length := noRR hnor
      refine ⟨?_, ?_, ?_, ?_, ?_, ?_, ?_, ?_⟩ <;> dsimp only
      · intro u hu
        by_cases het : u = t
        · subst het; exact hl
        · rw [updPC_other _ _ _ _ het] at hu
          exact mutex u hu
      · intro u id2 pending h
        by_cases het : u = t
        · subst het; rw [updPC_same] at h; exact absurd h (by simp)
        · rw [updPC_other _ _ _ _ het] at h
          have hm := mutex u (by rw [h]; rfl)
          rw [hl] at hm
          exact absurd (by injection hm with h2; exact h2.symm) het
      · intro u id2 h
        by_cases het : u = t
        · subst het
          rw [updPC_same] at h
          injection h with hid2
          subst hid2
          refine ⟨?_, ?_, ?_, ?_⟩
          · simp only [List.length_append, List.length_cons, List.length_nil]
            omega
          · simp only [List.length_append, List.length_cons, List.length_nil]
            omega
          · simp only [List.length_append, List.length_cons, List.length_nil]
            omega
          · rw [hrc]
            exact List.get?_concat_length s.log (id, u)
        · rw [updPC_other _ _ _ _ het] at h
          have hm := mutex u (by rw [h]; rfl)
          rw [hl] at hm
          exact absurd (by injection hm with h2; exact h2.symm) het
      · intro _
        rw [flatLog_concat, hs, hwl]
      · intro _ hnr
        have h3 := hnr t id
        rw [updPC_same] at h3
        exact absurd rfl h3
      · intro hnr
        have h3 := hnr t id
        rw [updPC_same] at h3
        exact absurd rfl h3
      · rw [List.map_append, logIds]
        have hid2 : id = 1 + s.log.length := by omega
        simp only [List.map_cons, List.map_nil, List.length_append,
          List.length_cons, List.length_nil]
        rw [hid2, show [1 + s.log.length] = List.range' (1 + s.log.length) 1 by simp,
          List.range'_append_1, Nat.add_comm 1 s.log.length]
      · intro u id2 line h
        by_cases het : u = t
        · subst het; rw [updPC_same] at h; exact absurd h (by simp)
        · rw [updPC_other _ _ _ _ het] at h
          obtain ⟨h1, h2⟩ := finE u id2 line h
          have hlt : line < s.log.length := by
            rcases List.get?_eq_some.mp h2 with ⟨hh, _⟩
            exact hh
          exact ⟨h1, by rw [List.get?_append hlt]; exact h2⟩
  | readLine t id hpc hl hav =>
      obtain ⟨hid, hcnt, hlen, hget⟩ := ridE t id hpc
      refine ⟨?_, ?_, ?_, ?_, ?_, ?_, logIds, ?_⟩ <;> dsimp only
      · intro u hu
        by_cases het : u = t
        · subst het; rw [updPC_same] at hu; simp [Wire.PC.passive] at hu
        · rw [updPC_other _ _ _ _ het] at hu
          have hm := mutex u hu
          rw [hl] at hm
          exact absurd (by injection hm with h2; exact h2.symm) het
      · intro u id2 pending h
        by_cases het : u = t
        · subst het; rw [updPC_same] at h; exact absurd h (by simp)
        · rw [updPC_other _ _ _ _ het] at h
          have hm := mutex u (by rw [h]; rfl)
          rw [hl] at hm
          exact absurd (by injection hm with h2; exact h2.symm) het
      · intro u id2 h
        by_cases het : u = t
        · subst het; rw [updPC_same] at h; exact absurd h (by simp)
        · rw [updPC_other _ _ _ _ het] at h
          have hm := mutex u (by rw [h]; rfl)
          rw [hl] at hm
          exact absurd (by injection hm with h2; exact h2.symm) het
      · intro _
        refine noWS ?_
        intro u id2 p hup
        by_cases het : u = t
        · subst het; rw [hpc] at hup; exact absurd hup (by simp)
        · have hm := mutex u (by rw [hup]; rfl)
          rw [hl] at hm
          exact absurd (by injection hm with h2; exact h2.symm) het
      · intro _ _
        omega
      · intro _
        omega
      · intro u id2 line h
        by_cases het : u = t
        · subst het
          rw [updPC_same] at h
          injection h with hid2 hline
          subst hid2
          subst hline
          exact ⟨by omega, hget⟩
        · rw [updPC_other _ _ _ _ het] at h
          exact finE u id2 line h

theorem reachable_inv (specs : Nat → ReqSpec) (s : Wire.SysState)
    (h : Wire.Reachable specs s) : Wire.Inv specs s := by
  have h2 : Relation.ReflTransGen (Wire.Step specs) Wire.initState s := h
  clear h
  induction h2 with
  | refl => exact inv_init specs
  | tail _ hstep ih => exact inv_step specs hstep ih

/-- C1: for every set of caller threads invoking the facade concurrently
(modelled as arbitrarily many `_send_request` callers with arbitrary
methods and params), in every reachable interleaving the id allocation,
serialization, write, flush and response read of each request execute
under the single I/O lock, so the subprocess's input stream is a sequence
of complete, non-interleaved, newline-terminated JSON request lines (plus
at most one in-progress prefix), each line parses independently (its only
newline is the terminator), and the caller that wrote the Nth request line
reads the Nth response line. -/
theorem c1_lock_serializes_requests (specs : Nat → ReqSpec) (s : Wire.SysState)
    (h : Wire.Reachable specs s) : Wire.C1Good specs s := by
  obtain ⟨mutex, widE, ridE, noWS, noWC, noRR, logIds, finE⟩ := reachable_inv specs s h
  refine ⟨?_, logIds, ?_, ?_⟩
  · by_cases hw : ∃ t id p, s.pcs t = .writing id p
    · obtain ⟨t, id, p, hpc⟩ := hw
      obtain ⟨_, _, w, hwp, hs⟩ := widE t id p hpc
      exact ⟨w, hs, .inr ⟨t, id, p, hpc, hwp⟩⟩
    · push_neg at hw
      refine ⟨[], ?_, .inl rfl⟩
      rw [List.append_nil]
      exact noWS hw
  · intro id r
    exact requestLine_wellformed id r
  · intro t id line hf
    exact finE t id line hf

/-- Witness for C1: the conclusion holds at the concretely reachable state
in which caller 0 has taken the lock and allocated id 1 for a demo
`tools/call` request. -/
theorem c1_witness : Wire.C1Good Wire.demoSpecs Wire.demoS2 :=
  c1_lock_serializes_requests Wire.demoSpecs Wire.demoS2
    (Relation.ReflTransGen.tail
      (Relation.ReflTransGen.single (Wire.Step.acquire Wire.initState 0 rfl rfl))
      (Wire.Step.alloc Wire.demoS1 0 rfl rfl))

/-! ## Lifecycle lemmas: request-id monotonicity -/

theorem applyEvent_bounds (c : Backend.Client) (e : Backend.Event) :
    c.request_id ≤ (Backend.applyEvent c e).client.request_id
    ∧ List.Chain' (· < ·) (Backend.applyEvent c e).ids
    ∧ ∀ i ∈ (Backend.applyEvent c e).ids,
        c.request_id < i ∧ i ≤ (Backend.applyEvent c e).client.request_id := by
  cases e with
  | connectEv sp hs =>
      simp only [Backend.applyEvent, Backend.connect]
      split
      · simp
      · cases sp with
        | exn => simp
        | ok => cases hs <;> simp
  | sendEv =>
      simp only [Backend.applyEvent, Backend.sendRequest]
      cases hp : c.process <;> simp
  | procExitEv =>
      simp [Backend.applyEvent]

theorem runEvents_bounds (es : List Backend.Event) :
    ∀ c : Backend.Client,
      c.request_id ≤ (Backend.runEvents c es).client.request_id
      ∧ List.Chain' (· < ·) (Backend.runEvents c es).ids
      ∧ ∀ i ∈ (Backend.runEvents c es).ids,
          c.request_id < i ∧ i ≤ (Backend.runEvents c es).client.request_id := by
  induction es with
  | nil => intro c; simp [Backend.runEvents]
  | cons e es ih =>
      intro c
      obtain ⟨h1, hch1, h2⟩ := applyEvent_bounds c e
      obtain ⟨ih1, ih2, ih3⟩ := ih (Backend.applyEvent c e).client
      have hids : (Backend.runEvents c (e :: es)).ids
          = (Backend.applyEvent c e).ids ++ (Backend.runEvents (Backend.applyEvent c e).client es).ids := rfl
      have hcl : (Backend.runEvents c (e :: es)).client
          = (Backend.runEvents (Backend.applyEvent c e).client es).client := rfl
      refine ⟨by rw [hcl]; exact le_trans h1 ih1, ?_, ?_⟩
      · rw [hids]
        refine List.Chain'.append hch1 ih2 ?_
        intro x hx y hy
        have hxm : x ∈ (Backend.applyEvent c e).ids :=
          List.mem_of_getLast?_eq_some (Option.mem_def.mp hx)
        have hym : y ∈ (Backend.runEvents (Backend.applyEvent c e).client es).ids := by
          obtain ⟨ys, hys⟩ := List.head?_eq_some_iff.mp (Option.mem_def.mp hy)
          rw [hys]; exact List.mem_cons_self y ys
        exact lt_of_le_of_lt (h2 x hxm).2 (ih3 y hym).1
      · intro i hi
        rw [hids] at hi
        rw [hcl]
        rcases List.mem_append.mp hi with hA | hB
        · exact ⟨(h2 i hA).1, le_trans (h2 i hA).2 ih1⟩
        · exact ⟨lt_of_le_of_lt h1 (ih3 i hB).1, (ih3 i hB).2⟩

theorem applyEvent_good_ids (c : Backend.Client) (e : Backend.Event)
    (hgs : e = Backend.Event.sendEv → c.process = Backend.ProcState.alive)
    (hgc : ∀ sp hs, e = Backend.Event.connectEv sp hs →
      c.process = Backend.ProcState.alive ∨ sp = Backend.SpawnOutcome.exn
        ∨ hs ≠ Backend.HsOutcome.failDeadNoWrite) :
    (Backend.applyEvent c e).ids
      = List.range' (c.request_id + 1)
          ((Backend.applyEvent c e).client.request_id - c.request_id) := by
  cases e with
  | connectEv sp hs =>
      have hc := hgc sp hs rfl
      simp only [Backend.applyEvent, Backend.connect]
      split
      · simp
      · next hna =>
          rcases hc with hc | hc | hc
          · exact absurd hc hna
          · subst hc
            simp
          · cases sp with
            | exn => simp
            | ok =>
                cases hs with
                | ok => simp
                | failAlive => simp
                | failDead => simp
                | failDeadNoWrite => exact absurd rfl hc
  | sendEv =>
      have hp := hgs rfl
      simp [Backend.applyEvent, Backend.sendRequest, hp]
  | procExitEv =>
      simp [Backend.applyEvent]

theorem runEvents_good_ids (es : List Backend.Event) :
    ∀ c : Backend.Client, Backend.goodTraceB c es = true →
      (Backend.runEvents c es).ids
        = List.range' (c.request_id + 1)
            ((Backend.runEvents c es).client.request_id - c.request_id) := by
  induction es with
  | nil => intro c _; simp [Backend.runEvents]
  | cons e es ih =>
      intro c hg
      simp only [Backend.goodTraceB, Bool.and_eq_true] at hg
      obtain ⟨hg1, hg2⟩ := hg
      have hgs : e = Backend.Event.sendEv → c.process = Backend.ProcState.alive := by
        intro he
        subst he
        exact of_decide_eq_true (by simpa using hg1)
      have hgc : ∀ sp hs, e = Backend.Event.connectEv sp hs →
          c.process = Backend.ProcState.alive ∨ sp = Backend.SpawnOutcome.exn
            ∨ hs ≠ Backend.HsOutcome.failDeadNoWrite := by
        intro sp hs he
        subst he
        have hg3 := hg1
        simp only [Bool.or_eq_true, decide_eq_true_eq] at hg3
        tauto
      have hids : (Backend.runEvents c (e :: es)).ids
          = (Backend.applyEvent c e).ids
            ++ (Backend.runEvents (Backend.applyEvent c e).client es).ids := rfl
      have hcl : (Backend.runEvents c (e :: es)).client
          = (Backend.runEvents (Backend.applyEvent c e).client es).client := rfl
      obtain ⟨hmono1, _, _⟩ := applyEvent_bounds c e
      obtain ⟨hmono2, _, _⟩ := runEvents_bounds es (Backend.applyEvent c e).client
      rw [hids, hcl, applyEvent_good_ids c e hgs hgc, ih _ hg2]
      have h1 : (Backend.applyEvent c e).client.request_id + 1
          = (c.request_id + 1) + ((Backend.applyEvent c e).client.request_id - c.request_id) := by
        omega
      rw [h1, List.range'_append_1]
      congr 1
      omega

theorem connect_ids (c : Backend.Client) (sp : Backend.SpawnOutcome)
    (hs : Backend.HsOutcome) (j : Nat)
    (hj : j ∈ (Backend.connect c sp hs).idsWritten) : j = c.request_id + 1 := by
  simp only [Backend.connect] at hj
  split at hj
  · simp at hj
  · cases sp with
    | exn => simp at hj
    | ok => cases hs <;> simpa using hj

/-- C10 (implicit): the request-id counter belongs to the client object,

not to a Connection — it starts at 0 at construction, never decreases on
any event, is not reset by `connect`, and therefore over any client
lifetime the ids received by the subprocess are globally strictly
increasing; after any prefix that already wrote an id, a re-spawned
Connection's first (handshake) request has id greater than 1 — it does not
restart at 1. -/
theorem c10_request_counter_client_scoped :
    Backend.initClient.request_id = 0
    ∧ (∀ (c : Backend.Client) (e : Backend.Event),
        c.request_id ≤ (Backend.applyEvent c e).client.request_id)
    ∧ (∀ (c : Backend.Client) (sp : Backend.SpawnOutcome) (hs : Backend.HsOutcome),
        c.request_id ≤ (Backend.connect c sp hs).client.request_id)
    ∧ (∀ es : List Backend.Event, List.Chain' (· < ·) (Backend.idsWritten es))
    ∧ (∀ (es : List Backend.Event) (sp : Backend.SpawnOutcome) (hs : Backend.HsOutcome),
        Backend.idsWritten es ≠ [] →
        ∀ j ∈ (Backend.connect
            (Backend.runEvents Backend.initClient es).client sp hs).idsWritten,
          1 < j) := by
  refine ⟨rfl, ?_, ?_, ?_, ?_⟩
  · intro c e
    exact (applyEvent_bounds c e).1
  · intro c sp hs
    exact (applyEvent_bounds c (.connectEv sp hs)).1
  · intro es
    exact (runEvents_bounds es Backend.initClient).2.1
  · intro es sp hs hne j hj
    obtain ⟨hmono, _, hbd⟩ := runEvents_bounds es Backend.initClient
    obtain ⟨i, hi⟩ := List.exists_mem_of_ne_nil _ hne
    have hi2 := hbd i hi
    have hj2 := connect_ids _ sp hs j hj
    omega

/-- Witness for C10: after a connect and a subprocess death, re-connecting
writes an id greater than 1. -/
theorem c10_witness :
    Backend.idsWritten [Backend.Event.connectEv .ok .ok, Backend.Event.procExitEv] ≠ []
    ∧ ∀ j ∈ (Backend.connect (Backend.runEvents Backend.initClient
        [Backend.Event.connectEv .ok .ok, Backend.Event.procExitEv]).client .ok .ok).idsWritten,
        1 < j :=
  ⟨by decide, c10_request_counter_client_scoped.2.2.2.2 _ .ok .ok (by decide)⟩

/-- Counterexample to C5 as stated: after the first Connection (handshake
id 1) and the subprocess's death, a second `connect` spawns a fresh
Connection whose first written id is 2, not 1 — so ids do NOT start at 1
for every single Connection lifetime. -/
theorem c5_counterexample :
    (Backend.connect (Backend.runEvents Backend.initClient
        [Backend.Event.connectEv .ok .ok, Backend.Event.procExitEv]).client .ok .ok).spawned = true
    ∧ (Backend.connect (Backend.runEvents Backend.initClient
        [Backend.Event.connectEv .ok .ok, Backend.Event.procExitEv]).client .ok .ok).idsWritten = [2]
    ∧ (2 : Nat) ≠ 1 := by decide

/-- C5 (amended): the ids written to the pipe over a client lifetime are
strictly increasing, but they start at 1 only for the client's FIRST
Connection and may have gaps: an id allocated to a write that hits a dead
pipe (a tool request sent after the subprocess exited, or a handshake
write to a subprocess that dies before receiving it) advances the counter
without reaching the wire — the trace [connect whose subprocess dies
before the initialize write lands, successful re-connect] puts exactly
[2] on the wire, skipping id 1.  When every request line lands on a live
pipe, the ids are exactly 1, 2, 3, … — strictly increasing by 1 across
the whole client lifetime, each Connection's requests consecutive within
that sequence, a later Connection continuing from the client-wide counter
rather than restarting at 1. -/
theorem c5_amended_ids_consecutive :
    (∀ es : List Backend.Event, Backend.goodTraceB Backend.initClient es = true →
      Backend.idsWritten es
        = List.range' 1 (Backend.runEvents Backend.initClient es).client.request_id)
    ∧ (∀ es : List Backend.Event, List.Chain' (· < ·) (Backend.idsWritten es))
    ∧ Backend.idsWritten
        [Backend.Event.connectEv .ok .failDeadNoWrite, Backend.Event.connectEv .ok .ok]
      = [2] := by
  refine ⟨?_, ?_, by decide⟩
  · intro es hg
    have h := runEvents_good_ids es Backend.initClient hg
    simpa using h
  · intro es
    exact (runEvents_bounds es Backend.initClient).2.1

/-- Witness for the amended C5: connect then one tool call is a good
trace and gives ids [1, 2]. -/
theorem c5_witness :
    Backend.goodTraceB Backend.initClient
        [Backend.Event.connectEv .ok .ok, Backend.Event.sendEv] = true
    ∧ Backend.idsWritten [Backend.Event.connectEv .ok .ok, Backend.Event.sendEv]
        = List.range' 1 (Backend.runEvents Backend.initClient
            [Backend.Event.connectEv .ok .ok, Backend.Event.sendEv]).client.request_id :=
  ⟨by decide, c5_amended_ids_consecutive.1 _ (by decide)⟩

/-- C6: `connect()` is idempotent while a live Connection exists — the
first call spawns, the second call spawns nothing (whatever the
environment would have done), returns success immediately, and leaves the
client unchanged. -/
theorem c6_connect_idempotent (sp : Backend.SpawnOutcome) (hs : Backend.HsOutcome) :
    (Backend.connect Backend.initClient .ok .ok).spawned = true
    ∧ (Backend.connect (Backend.connect Backend.initClient .ok .ok).client sp hs).spawned = false
    ∧ (Backend.connect (Backend.connect Backend.initClient .ok .ok).client sp hs).result
        = Backend.ConnectResult.returned true
    ∧ (Backend.connect (Backend.connect Backend.initClient .ok .ok).client sp hs).client
        = (Backend.connect Backend.initClient .ok .ok).client :=
  ⟨rfl, rfl, rfl, rfl⟩

/-- Counterexample to C3 as stated: an exception during the SPAWN
propagates out of backend.py's `connect` (the spawn sits outside the
`try`), instead of yielding `False`. -/
theorem c3_counterexample :
    (Backend.connect Backend.initClient .exn .ok).result = Backend.ConnectResult.raised
    ∧ Backend.ConnectResult.raised ≠ Backend.ConnectResult.returned false := by decide

/-- C3 (amended): exceptions during the HANDSHAKE are caught — backend.py's
`connect` returns false and never propagates them; but an exception during
the spawn itself propagates out of backend.py's `connect` (only the
facade converts it to an error outcome); chatbot.py's `connect`, whose
`try` encloses the spawn too, returns false in that case as well. -/
theorem c3_amended_exception_containment :
    (∀ (c : Backend.Client) (hs : Backend.HsOutcome),
        (Backend.connect c .ok hs).result ≠ Backend.ConnectResult.raised)
    ∧ (∀ (c : Backend.Client) (hs : Backend.HsOutcome),
        c.process ≠ Backend.ProcState.alive → hs ≠ Backend.HsOutcome.ok →
        (Backend.connect c .ok hs).result = Backend.ConnectResult.returned false)
    ∧ (∀ (c : Backend.Client) (hs : Backend.HsOutcome),
        c.process ≠ Backend.ProcState.alive →
        (Backend.connect c .exn hs).result = Backend.ConnectResult.raised)
    ∧ (∀ (c : Chatbot.Client) (hs : Backend.HsOutcome),
        (Chatbot.connect c .exn hs).1 = false) := by
  refine ⟨?_, ?_, ?_, ?_⟩
  · intro c hs
    simp only [Backend.connect]
    split
    · simp
    · cases hs <;> simp
  · intro c hs hp hh
    simp only [Backend.connect]
    rw [if_neg hp]
    cases hs with
    | ok => exact absurd rfl hh
    | failAlive => rfl
    | failDead => rfl
    | failDeadNoWrite => rfl
  · intro c hs hp
    simp only [Backend.connect]
    rw [if_neg hp]
  · intro c hs
    rfl

/-- Witness for the amended C3 at concrete clients. -/
theorem c3_witness :
    ((Backend.connect { process := Backend.ProcState.noProc, request_id := 0 } .ok .failAlive).result
        ≠ Backend.ConnectResult.raised)
    ∧ (Backend.connect { process := Backend.ProcState.noProc, request_id := 0 } .ok .failAlive).result
        = Backend.ConnectResult.returned false
    ∧ (Backend.connect { process := Backend.ProcState.exited, request_id := 5 } .exn .ok).result
        = Backend.ConnectResult.raised
    ∧ (Chatbot.connect Chatbot.initClient .exn .ok).1 = false :=
  ⟨c3_amended_exception_containment.1 _ _,
   c3_amended_exception_containment.2.1 _ _ (by decide) (by decide),
   c3_amended_exception_containment.2.2.1 _ _ (by decide),
   c3_amended_exception_containment.2.2.2 _ _⟩

/-- C4 (evaluation of the code at the failing input): a connect whose
spawn succeeds but whose handshake fails with the subprocess still alive
returns false, completes no handshake — yet leaves `self.process` live, so
the next `_ensure_connected` returns success WITHOUT re-doing spawn or
handshake (third component `false` = no connect attempt performed): a
later operation treats the client as connected, contradicting "handshake
failure leaves no usable Connection". -/
theorem c4_handshake_failure_leaves_usable_connection :
    (Backend.connect Backend.initClient .ok .failAlive).result
        = Backend.ConnectResult.returned false
    ∧ (Backend.connect Backend.initClient .ok .failAlive).handshakeDone = false
    ∧ (Backend.connect Backend.initClient .ok .failAlive).client.process
        = Backend.ProcState.alive
    ∧ Backend.ensureConnected
        (Backend.connect Backend.initClient .ok .failAlive).client .ok .ok
      = (Backend.EnsureResult.okE,
         (Backend.connect Backend.initClient .ok .failAlive).client, false) := by decide

/-- Counterexample to C2 as stated: backend.py's facade
`get_mcp_response` blocks on `fut.result()` with NO timeout, so a task
that never completes (e.g. the subprocess never answers) hangs the caller
forever instead of yielding an error outcome. -/
theorem c2_counterexample :
    Facade.get_mcp_response Facade.TaskFate.neverCompletes = Facade.FacadeBehavior.hangs := rfl

/-- `Except.ok a >>= f` computes to `f a`. -/
theorem exceptOk_bind {ε α β : Type} (a : α) (f : α → Except ε β) :
    (Except.ok a : Except ε α) >>= f = f a := rfl

/-- `pure` in the `Except` monad is `Except.ok`. -/
theorem exceptPure {ε α : Type} (a : α) : (pure a : Except ε α) = Except.ok a := rfl

/-- C2 (amended): chatbot.py's facade `call_mcp_action` bounds its wait at
30 time units and converts both a timeout and any exception into an error
outcome, never hanging; backend.py's facade `get_mcp_response` imposes no
bound — it returns the task's outcome whenever the task completes, but
blocks forever on a task that never does. -/
theorem c2_amended_bounded_wait :
    (∀ fate : Facade.TaskFate,
        Facade.call_mcp_action fate ≠ Facade.FacadeBehavior.hangs)
    ∧ (∀ (t : Nat) (v : Option String × Option String), 30 < t →
        Facade.call_mcp_action (.completesAt t v)
          = Facade.FacadeBehavior.outcome
              (none, some "Internal error: concurrent.futures.TimeoutError"))
    ∧ (Facade.call_mcp_action Facade.TaskFate.neverCompletes
        = Facade.FacadeBehavior.outcome
            (none, some "Internal error: concurrent.futures.TimeoutError"))
    ∧ (∀ (t : Nat) (v : Option String × Option String),
        Facade.get_mcp_response (.completesAt t v) = Facade.FacadeBehavior.outcome v) := by
  refine ⟨?_, ?_, rfl, ?_⟩
  · intro fate
    cases fate with
    | completesAt t v =>
        by_cases ht : t ≤ 30 <;>
          simp [Facade.call_mcp_action, Facade.futureResult, ht]
    | raisesAt t m =>
        by_cases ht : t ≤ 30 <;>
          simp [Facade.call_mcp_action, Facade.futureResult, ht]
    | neverCompletes => simp [Facade.call_mcp_action, Facade.futureResult]
  · intro t v ht
    simp only [Facade.call_mcp_action, Facade.futureResult]
    rw [if_neg (by omega)]
  · intro t v
    rfl

/-- Witness for the amended C2: a task completing after 31 units times
out and is reported as an error outcome. -/
theorem c2_witness :
    (30 : Nat) < 31
    ∧ Facade.call_mcp_action (.completesAt 31 (none, none))
        = Facade.FacadeBehavior.outcome
            (none, some "Internal error: concurrent.futures.TimeoutError") :=
  ⟨by decide, c2_amended_bounded_wait.2.1 31 (none, none) (by decide)⟩

/-- Counterexample to C7 as stated: `clear_history` and `get_summary`
never inspect the `error` member — a response envelope carrying
`{"error": {"message": "boom"}}` falls through to the friendly default
SUCCESS outcome instead of an error outcome carrying "boom". -/
theorem c7_counterexample :
    ToolLayer.clear_history (.resp ToolLayer.errorEnvelope)
      = (some (Json.str (chars "Conversation history cleared.")), none)
    ∧ ToolLayer.get_summary (.resp ToolLayer.errorEnvelope)
      = (some (Json.str (chars "No conversation to summarise.")), none)
    ∧ (some (Json.str (chars "Conversation history cleared.")),
        (none : Option (List Char)))
      ≠ ((none : Option Json), some (chars "boom")) := by
  refine ⟨rfl, rfl, by simp⟩

/-- C7 (amended): for `clear_history` and `get_summary`, EVERY response
without a `result` member carrying nested `content` — including an
envelope whose `error` member holds the subprocess's message — yields the
friendly default success message, not an error outcome; the
subprocess-supplied error message is never surfaced by these two
operations (only an exception during the call produces an error
outcome). -/
theorem c7_amended_friendly_default :
    (∀ fs : JFields, jLookup fs (chars "result") = none →
        ToolLayer.clear_history (.resp (.obj fs))
          = (some (Json.str (chars "Conversation history cleared.")), none)
        ∧ ToolLayer.get_summary (.resp (.obj fs))
          = (some (Json.str (chars "No conversation to summarise.")), none))
    ∧ (∀ (fs rs : JFields),
        jLookup fs (chars "result") = some (.obj rs) →
        jLookup rs (chars "content") = none →
        ToolLayer.clear_history (.resp (.obj fs))
          = (some (Json.str (chars "Conversation history cleared.")), none)
        ∧ ToolLayer.get_summary (.resp (.obj fs))
          = (some (Json.str (chars "No conversation to summarise.")), none)) := by
  constructor
  · intro fs h
    have he : ToolLayer.extractContentText (.obj fs) = Except.ok none := by
      simp [ToolLayer.extractContentText, ToolLayer.pyIn, h, exceptOk_bind, exceptPure]
    constructor <;> simp [ToolLayer.clear_history, ToolLayer.get_summary, he]
  · intro fs rs h1 h2
    have he : ToolLayer.extractContentText (.obj fs) = Except.ok none := by
      simp [ToolLayer.extractContentText, ToolLayer.pyIn, ToolLayer.pyIndexKey,
        h1, h2, exceptOk_bind, exceptPure]
    constructor <;> simp [ToolLayer.clear_history, ToolLayer.get_summary, he]

/-- Witness for the amended C7 at the concrete error envelope. -/
theorem c7_witness :
    jLookup ToolLayer.errorFields (chars "result") = none
    ∧ ToolLayer.clear_history (.resp (.obj ToolLayer.errorFields))
        = (some (Json.str (chars "Conversation history cleared.")), none)
    ∧ ToolLayer.get_summary (.resp (.obj ToolLayer.errorFields))
        = (some (Json.str (chars "No conversation to summarise.")), none) :=
  ⟨rfl, (c7_amended_friendly_default.1 ToolLayer.errorFields rfl).1,
    (c7_amended_friendly_default.1 ToolLayer.errorFields rfl).2⟩

/-! ## History eviction -/

theorem trimLoop_suffix (maxChars : Nat) :
    ∀ (h : List History.Msg) (cur : Nat),
      History.trimLoop maxChars cur h <:+ h := by
  intro h
  induction h with
  | nil => intro cur; simp [History.trimLoop]
  | cons m rest ih =>
      intro cur
      simp only [History.trimLoop]
      split
      · exact (ih _).trans (List.suffix_cons m rest)
      · exact List.suffix_rfl

theorem trimLoop_stop (maxChars : Nat) :
    ∀ (h : List History.Msg) (cur : Nat), cur = History.totalChars h →
      History.totalChars (History.trimLoop maxChars cur h) ≤ maxChars
      ∨ (History.trimLoop maxChars cur h).length ≤ 2 := by
  intro h
  induction h with
  | nil =>
      intro cur _
      right
      simp [History.trimLoop]
  | cons m rest ih =>
      intro cur hcur
      simp only [History.trimLoop]
      split
      · refine ih (cur - History.msgLen m) ?_
        simp only [History.totalChars, List.map_cons, List.sum_cons] at hcur
        simp only [History.totalChars]
        omega
      · next hcond =>
          rw [Decidable.not_and_iff_or_not] at hcond
          rcases hcond with h1 | h1
          · left; omega
          · right; omega

theorem trimLoop_noop (maxChars : Nat) (h : List History.Msg)
    (hok : History.totalChars h ≤ maxChars ∨ h.length ≤ 2) :
    History.trimLoop maxChars (History.totalChars h) h = h := by
  cases h with
  | nil => simp [History.trimLoop]
  | cons m rest =>
      have hc : ¬(maxChars < History.totalChars (m :: rest) ∧ 2 < (m :: rest).length) := by
        rcases hok with h1 | h1
        · intro hcon; omega
        · intro hcon; omega
      simp only [History.trimLoop]
      rw [if_neg hc]

theorem trimLoop_maximal (maxChars : Nat) :
    ∀ (h : List History.Msg) (cur : Nat), cur = History.totalChars h →
      ∀ s : List History.Msg, s <:+ h →
        (History.totalChars s ≤ maxChars ∨ s.length ≤ 2) →
        s <:+ History.trimLoop maxChars cur h := by
  intro h
  induction h with
  | nil =>
      intro cur _ s hs _
      rw [List.suffix_nil] at hs
      subst hs
      simp [History.trimLoop]
  | cons m rest ih =>
      intro cur hcur s hs hok
      simp only [History.trimLoop]
      split
      · next hcond =>
          rcases List.suffix_cons_iff.mp hs with heq | hsuf
          · exfalso
            subst heq
            omega
          · refine ih (cur - History.msgLen m) ?_ s hsuf hok
            simp only [History.totalChars, List.map_cons, List.sum_cons] at hcur
            simp only [History.totalChars]
            omega
      · exact hs

/-- C9: `trim_history` returns a suffix of the input (entries are removed
oldest-first only); the result is within the cap or has at most 2 entries
(whichever stop came first); an input already within the cap, or of length
at most 2, is returned unchanged; and the removal is minimal — every
suffix of the input that is itself within the cap or of length at most 2
is still a suffix of the result. -/
theorem c9_trim_history_evicts_oldest (h : List History.Msg) (maxChars : Nat) :
    History.trim_history h maxChars <:+ h
    ∧ (History.totalChars (History.trim_history h maxChars) ≤ maxChars
        ∨ (History.trim_history h maxChars).length ≤ 2)
    ∧ (History.totalChars h ≤ maxChars ∨ h.length ≤ 2 →
        History.trim_history h maxChars = h)
    ∧ (∀ s : List History.Msg, s <:+ h →
        History.totalChars s ≤ maxChars ∨ s.length ≤ 2 →
        s <:+ History.trim_history h maxChars) :=
  ⟨trimLoop_suffix maxChars h (History.totalChars h),
   trimLoop_stop maxChars h (History.totalChars h) rfl,
   fun hok => trimLoop_noop maxChars h hok,
   fun s hs hok => trimLoop_maximal maxChars h (History.totalChars h) rfl s hs hok⟩

/-- Witness for C9 at a concrete history: three 4-character messages with
cap 5 trim to a suffix; a 1-element history already within the cap is
returned unchanged. -/
theorem c9_witness :
    History.trim_history
        ([{ role := chars "user", content := chars "aaaa" },
          { role := chars "assistant", content := chars "bbbb" },
          { role := chars "user", content := chars "cccc" }] : List History.Msg) 5
      <:+ ([{ role := chars "user", content := chars "aaaa" },
            { role := chars "assistant", content := chars "bbbb" },
            { role := chars "user", content := chars "cccc" }] : List History.Msg)
    ∧ (History.totalChars ([{ role := chars "user", content := chars "aa" }] : List History.Msg) ≤ 5
        ∨ ([{ role := chars "user", content := chars "aa" }] : List History.Msg).length ≤ 2)
    ∧ History.trim_history ([{ role := chars "user", content := chars "aa" }] : List History.Msg) 5
        = ([{ role := chars "user", content := chars "aa" }] : List History.Msg) :=
  ⟨(c9_trim_history_evicts_oldest _ 5).1,
   Or.inl (by decide),
   (c9_trim_history_evicts_oldest _ 5).2.2.1 (Or.inl (by decide))⟩

/-! ## Classifier refinement: containment survives strip -/

theorem contains_dropWhile_of_contains {p : Char → Bool} {pat : List Char}
    (hh : ∀ c, pat.head? = some c → p c = false) :
    ∀ l : List Char, pat <:+: l → pat <:+: l.dropWhile p := by
  intro l
  induction l with
  | nil => intro h; simpa using h
  | cons a l ih =>
      intro h
      rw [List.dropWhile_cons]
      split
      · next hpa =>
          rcases List.infix_cons_iff.mp h with hpre | hinf
          · cases pat with
            | nil => exact List.nil_infix
            | cons pc prest =>
                obtain ⟨hpc, _⟩ := List.cons_prefix_cons.mp hpre
                have hfalse := hh pc rfl
                rw [hpc, hpa] at hfalse
                exact absurd hfalse (by simp)
          · exact ih hinf
      · exact h

theorem contains_dropWhile_iff {p : Char → Bool} {pat : List Char}
    (hh : ∀ c, pat.head? = some c → p c = false) (l : List Char) :
    pat <:+: l.dropWhile p ↔ pat <:+: l :=
  ⟨fun h => h.trans (List.dropWhile_suffix p).isInfix, contains_dropWhile_of_contains hh l⟩

theorem contains_pyStrip_iff {pat : List Char} (l : List Char)
    (h1 : ∀ c, pat.head? = some c → isSp c = false)
    (h2 : ∀ c, pat.getLast? = some c → isSp c = false) :
    pat <:+: pyStrip l ↔ pat <:+: l := by
  have hrev : ∀ c, pat.reverse.head? = some c → isSp c = false := by
    intro c hc
    rw [List.head?_reverse] at hc
    exact h2 c hc
  unfold pyStrip
  constructor
  · intro h
    rw [← List.reverse_reverse pat] at h
    have h3 := List.reverse_infix.mp h
    have h4 := (contains_dropWhile_iff hrev _).mp h3
    have h5 := List.reverse_infix.mp h4
    exact h5.trans (List.dropWhile_suffix isSp).isInfix
  · intro h
    have h5 : pat <:+: l.dropWhile isSp := contains_dropWhile_of_contains h1 l h
    have h4 : pat.reverse <:+: (l.dropWhile isSp).reverse := List.reverse_infix.mpr h5
    have h3 : pat.reverse <:+: (l.dropWhile isSp).reverse.dropWhile isSp :=
      contains_dropWhile_of_contains hrev _ h4
    have h6 := List.reverse_infix.mpr h3
    simpa using h6

theorem goodPat_head {pat : List Char} (hg : Classify.goodPat pat = true) :
    ∀ c, pat.head? = some c → isSp c = false := by
  cases pat with
  | nil => simp [Classify.goodPat] at hg
  | cons a rest =>
      intro c hc
      simp only [List.head?_cons, Option.some.injEq] at hc
      subst hc
      simp [Classify.goodPat] at hg
      exact hg.1

theorem goodPat_last {pat : List Char} (hg : Classify.goodPat pat = true) :
    ∀ c, pat.getLast? = some c → isSp c = false := by
  cases pat with
  | nil => simp [Classify.goodPat] at hg
  | cons a rest =>
      intro c hc
      rw [List.getLast?_cons] at hc
      injection hc with hc2
      subst hc2
      simp [Classify.goodPat] at hg
      exact hg.2

theorem anyInfix_strip (pats : List (List Char)) (l : List Char)
    (hg : ∀ pat ∈ pats, Classify.goodPat pat = true) :
    (pats.any fun p => decide (p <:+: pyStrip l))
      = (pats.any fun p => decide (p <:+: l)) := by
  induction pats with
  | nil => rfl
  | cons p ps ih =>
      simp only [List.any_cons]
      rw [ih (fun q hq => hg q (List.mem_cons_of_mem p hq)),
        decide_eq_decide.mpr
          (contains_pyStrip_iff l
            (goodPat_head (hg p (List.mem_cons_self p ps)))
            (goodPat_last (hg p (List.mem_cons_self p ps))))]

/-- C8: `parse_message_for_action` is pure and agrees, on every message,
with the classification the specification describes — `symptoms:` /
`analyze:` prefixes (on the lowercased, stripped text) route to symptom
analysis with the remainder after the first colon, stripped; otherwise a
message containing (case-insensitively) a medical keyword AND a trigger
phrase routes to symptom analysis with the verbatim message; everything
else is plain chat with the verbatim message.  The spec-side definition
tests containment in the lowercased message; the code tests the
lowercased-and-stripped text — equivalent because no keyword or phrase
starts or ends with whitespace.  The second conjunct checks the spec's
concrete example. -/
theorem c8_parse_message_refines_spec :
    (∀ message : List Char,
        Classify.parse_message_for_action message = Classify.parseSpecSide message)
    ∧ Classify.parse_message_for_action (chars "symptoms: headache and fever")
        = (chars "analyze_symptoms",
           [(chars "symptoms", chars "headache and fever")]) := by
  constructor
  · intro message
    unfold Classify.parse_message_for_action Classify.parseSpecSide
    rw [anyInfix_strip Classify.MEDICAL_KEYWORDS (pyLower message) (by decide),
      anyInfix_strip Classify.PHRASES (pyLower message) (by decide)]
  · decide

/-- Witness for C6 at concrete environment outcomes: even if the second
call's environment would have failed to spawn, the live Connection makes
it a successful no-op. -/
theorem c6_witness :
    (Backend.connect Backend.initClient .ok .ok).spawned = true
    ∧ (Backend.connect (Backend.connect Backend.initClient .ok .ok).client
        .exn .failDead).spawned = false
    ∧ (Backend.connect (Backend.connect Backend.initClient .ok .ok).client
        .exn .failDead).result = Backend.ConnectResult.returned true
    ∧ (Backend.connect (Backend.connect Backend.initClient .ok .ok).client
        .exn .failDead).client = (Backend.connect Backend.initClient .ok .ok).client :=
  c6_connect_idempotent .exn .failDead

/-- Witness for C8 at the spec's keyword-and-phrase example. -/
theorem c8_witness :
    Classify.parse_message_for_action (chars "I have a headache and nausea")
      = Classify.parseSpecSide (chars "I have a headache and nausea") :=
  c8_parse_message_refines_spec.1 (chars "I have a headache and nausea")
